import Mathlib

/-!
Verification development for the `TypingAnimation` React component
(src/TypingAnimation.tsx): a time-driven text-reveal widget with a
blinking caret.

The component is shallowly embedded as follows.

* JavaScript strings are modelled as `List Char` (the component indexes
  the target with `text[currentIndex]`, one code unit at a time).
* The four `useState` hooks (`displayedText`, `currentIndex`,
  `showCursor`, `isComplete`) form the `State` structure; the initial
  values `("", 0, true, false)` form `initState`.
* The reveal-driver effect (lines 25-40) schedules one `setTimeout`
  whose delay is `currentIndex === 0 ? delay : speed` (`timeoutDelay`)
  and whose callback is `revealTick`.  The effect's dependency array is
  `[currentIndex, text, speed, delay, onComplete]`, so with a fixed
  configuration the effect re-runs, and a fresh timeout is scheduled,
  exactly when the previous tick changed `currentIndex`; `isComplete` is
  not a dependency, so the terminal tick does not cause a re-run.
  `driverRun` unrolls this loop for a fixed configuration, returning the
  list of scheduled timeout delays, the final state, and the number of
  `onComplete` invocations.
* The cursor-blinker effect (lines 43-54) is `runCursorEffect`: when
  `hideCursorWhenComplete && isComplete` it sets `showCursor` to `false`
  and schedules nothing, otherwise it schedules a 500ms `setInterval`
  whose callback is `blinkToggle`.
* The JSX returned on lines 56-70 is `render`: a container carrying the
  caller's `className` and `displayedText`, and, unless
  `hideCursorWhenComplete && isComplete`, a caret node with glyph `|`
  and opacity `1`/`0` according to `showCursor`.
* `Step`/`Reachable` give the small-step semantics of one mounted
  instance with fixed configuration: a step is a reveal-timeout firing,
  a blink-interval firing (possible only while the interval is
  scheduled), or the cursor effect forcing the cursor off (possible only
  when it schedules nothing).
-/

namespace TypingAnimation

/-- The component state: the four `useState` hooks of
`TypingAnimation.tsx` (lines 20-23). -/
structure State where
  displayedText : List Char
  currentIndex : Nat
  showCursor : Bool
  isComplete : Bool
  deriving Repr, DecidableEq

/-- The initial state: `useState("")`, `useState(0)`, `useState(true)`,
`useState(false)`. -/
def initState : State :=
  { displayedText := [], currentIndex := 0, showCursor := true, isComplete := false }

/-- The `setTimeout` callback of the reveal-driver effect (lines 27-35):
if `currentIndex < text.length` append `text[currentIndex]` to
`displayedText` and increment `currentIndex`; otherwise set `isComplete`
and invoke `onComplete` when present.  The boolean result records
whether the completion branch ran (i.e. whether `onComplete` would be
invoked when supplied). -/
def revealTick (text : List Char) (s : State) : State × Bool :=
  if h : s.currentIndex < text.length then
    ({ s with
        displayedText := s.displayedText ++ [text.get ⟨s.currentIndex, h⟩],
        currentIndex := s.currentIndex + 1 }, false)
  else
    ({ s with isComplete := true }, true)

/-- The delay passed to `setTimeout` by the reveal-driver effect
(line 36): `currentIndex === 0 ? delay : speed`.  No clamping is
applied. -/
def timeoutDelay (speed delay : Int) (currentIndex : Nat) : Int :=
  if currentIndex = 0 then delay else speed

/-- The `setInterval` callback of the cursor-blinker effect
(line 50): `setShowCursor((prev) => !prev)`. -/
def blinkToggle (s : State) : State :=
  { s with showCursor := !s.showCursor }

/-- The body of the cursor-blinker effect (lines 43-54): when
`hideCursorWhenComplete && isComplete` it sets `showCursor` to `false`
and returns without scheduling an interval (`none`); otherwise it
schedules a `setInterval` with period 500 (`some 500`) whose callback is
`blinkToggle`. -/
def runCursorEffect (hideCursorWhenComplete : Bool) (s : State) : State × Option Nat :=
  if hideCursorWhenComplete && s.isComplete then
    ({ s with showCursor := false }, none)
  else
    (s, some 500)

/-- A caret node: the inner `span` of lines 60-67, with its `opacity`
style and its glyph. -/
structure Caret where
  opacity : Nat
  glyph : Char
  deriving Repr, DecidableEq

/-- The rendered output: the outer `span` of lines 56-69, carrying the
caller's `className`, the displayed text, and the optional caret
node. -/
structure Rendered where
  className : String
  text : List Char
  caret : Option Caret
  deriving Repr, DecidableEq

/-- The render projection (lines 56-70).  The caret node is present
exactly when `!hideCursorWhenComplete || !isComplete`; its opacity is
`showCursor ? 1 : 0` and its glyph is `|`. -/
def render (className : String) (hideCursorWhenComplete : Bool) (s : State) : Rendered :=
  { className := className
    text := s.displayedText
    caret :=
      if !hideCursorWhenComplete || !s.isComplete then
        some { opacity := if s.showCursor then 1 else 0, glyph := '|' }
      else
        none }

/-- One full run of the reveal driver for a fixed configuration,
starting from state `s`.  Each effect run schedules one `setTimeout`
with delay `timeoutDelay speed delay s.currentIndex` whose callback is
`revealTick`.  The effect's dependency array is
`[currentIndex, text, speed, delay, onComplete]`, so with the
configuration fixed a further effect run (and hence a further timeout)
happens exactly when the tick changed `currentIndex`, i.e. exactly when
`currentIndex < text.length` held; the terminal tick changes only
`isComplete`, which is not a dependency, so the loop ends with it.
Returns the list of scheduled timeout delays in order, the final state,
and the number of `onComplete` invocations (the callback is invoked
only when present: `if (onComplete) onComplete()`). -/
def driverRun (speed delay : Int) (text : List Char) (hasOnComplete : Bool) (s : State) :
    List Int × State × Nat :=
  let wait := timeoutDelay speed delay s.currentIndex
  if h : s.currentIndex < text.length then
    let rest := driverRun speed delay text hasOnComplete (revealTick text s).1
    (wait :: rest.1, rest.2.1, rest.2.2)
  else
    ([wait], (revealTick text s).1, if hasOnComplete then 1 else 0)
  termination_by text.length - s.currentIndex
  decreasing_by
    simp only [revealTick, dif_pos h]
    omega

/-- Post-completion reveal-effect re-runs.  After the terminal wake-up,
any change to `text`, `speed`, `delay`, or the `onComplete` reference
re-runs the reveal effect (its dependency array, line 40, lists all
four), and each re-run schedules one new timeout whose callback is
`revealTick` against the then-current `text`.  `texts` lists the `text`
value in effect during each such re-run (a change to `speed`, `delay` or
`onComplete` alone keeps the previous `text`).  Returns the final state
and the number of completion-branch `onComplete` invocations across
these wake-ups. -/
def postCompletionRuns : List (List Char) → State → State × Nat
  | [], s => (s, 0)
  | t :: ts, s =>
    ((postCompletionRuns ts (revealTick t s).1).1,
     (if (revealTick t s).2 then 1 else 0) + (postCompletionRuns ts (revealTick t s).1).2)

/-- One step of a mounted instance with fixed configuration `text`,
`hideCursorWhenComplete = hide`: a reveal timeout fires, a blink
interval fires (possible only while the cursor effect has scheduled the
interval), or the cursor effect forces the cursor off (possible only
when it schedules no interval, i.e. when `hide && isComplete`). -/
inductive Step (text : List Char) (hide : Bool) : State → State → Prop
  | reveal (s : State) : Step text hide s (revealTick text s).1
  | blink (s : State) (hsched : (runCursorEffect hide s).2 = some 500) :
      Step text hide s (blinkToggle s)
  | cursorOff (s : State) (hnone : (runCursorEffect hide s).2 = none) :
      Step text hide s (runCursorEffect hide s).1

/-- The states reachable by a mounted instance with fixed
configuration, starting from `initState`. -/
inductive Reachable (text : List Char) (hide : Bool) : State → Prop
  | init : Reachable text hide initState
  | step {s s' : State} : Reachable text hide s → Step text hide s s' →
      Reachable text hide s'

/-- The inductive invariant of a fixed-configuration instance:
`displayedText` is the revealed prefix of `text`, `currentIndex` never
exceeds `text.length`, and `isComplete` implies the reveal has reached
the end. -/
def Inv (text : List Char) (s : State) : Prop :=
  s.displayedText = text.take s.currentIndex ∧
  s.currentIndex ≤ text.length ∧
  (s.isComplete = true → s.currentIndex = text.length)

theorem revealTick_currentIndex_of_lt (text : List Char) (s : State)
    (h : s.currentIndex < text.length) :
    (revealTick text s).1.currentIndex = s.currentIndex + 1 := by
  simp [revealTick, h]

theorem revealTick_of_lt (text : List Char) (s : State)
    (h : s.currentIndex < text.length) :
    revealTick text s =
      ({ s with
          displayedText := s.displayedText ++ [text.get ⟨s.currentIndex, h⟩],
          currentIndex := s.currentIndex + 1 }, false) := by
  simp [revealTick, h]

theorem revealTick_of_not_lt (text : List Char) (s : State)
    (h : ¬ s.currentIndex < text.length) :
    revealTick text s = ({ s with isComplete := true }, true) := by
  simp [revealTick, h]

theorem driverRun_of_lt (speed delay : Int) (text : List Char) (hc : Bool) (s : State)
    (h : s.currentIndex < text.length) :
    driverRun speed delay text hc s =
      (timeoutDelay speed delay s.currentIndex ::
        (driverRun speed delay text hc (revealTick text s).1).1,
       (driverRun speed delay text hc (revealTick text s).1).2.1,
       (driverRun speed delay text hc (revealTick text s).1).2.2) := by
  rw [driverRun]
  simp [h]

theorem driverRun_of_not_lt (speed delay : Int) (text : List Char) (hc : Bool) (s : State)
    (h : ¬ s.currentIndex < text.length) :
    driverRun speed delay text hc s =
      ([timeoutDelay speed delay s.currentIndex],
       (revealTick text s).1, if hc then 1 else 0) := by
  rw [driverRun]
  simp [h]

/-- The scheduled timeout delays of a full run from a state not yet past
the end: the current wake-up's delay followed by one `speed` wait per
remaining wake-up. -/
theorem driverRun_waits (speed delay : Int) (text : List Char) (hc : Bool) :
    ∀ (k : Nat) (s : State), s.currentIndex + k = text.length →
    (driverRun speed delay text hc s).1 =
      timeoutDelay speed delay s.currentIndex :: List.replicate k speed := by
  intro k
  induction k with
  | zero =>
    intro s hs
    have h : ¬ s.currentIndex < text.length := by omega
    rw [driverRun_of_not_lt speed delay text hc s h]
    simp
  | succ k ih =>
    intro s hs
    have h : s.currentIndex < text.length := by omega
    rw [driverRun_of_lt speed delay text hc s h]
    have hidx := revealTick_currentIndex_of_lt text s h
    rw [ih (revealTick text s).1 (by omega)]
    rw [hidx]
    simp [timeoutDelay, List.replicate_succ]

/-- The number of `onComplete` invocations over a full run: one when the
callback is supplied, zero otherwise, from any starting state. -/
theorem driverRun_invocations (speed delay : Int) (text : List Char) (hc : Bool)
    (s : State) :
    (driverRun speed delay text hc s).2.2 = if hc then 1 else 0 := by
  generalize hm : text.length - s.currentIndex = k
  induction k generalizing s with
  | zero =>
    have h : ¬ s.currentIndex < text.length := by omega
    rw [driverRun_of_not_lt speed delay text hc s h]
  | succ k ih =>
    have h : s.currentIndex < text.length := by omega
    rw [driverRun_of_lt speed delay text hc s h]
    have hidx := revealTick_currentIndex_of_lt text s h
    exact ih (revealTick text s).1 (by omega)

/-- The final state of a full run has `isComplete = true`. -/
theorem driverRun_isComplete (speed delay : Int) (text : List Char) (hc : Bool)
    (s : State) :
    (driverRun speed delay text hc s).2.1.isComplete = true := by
  generalize hm : text.length - s.currentIndex = k
  induction k generalizing s with
  | zero =>
    have h : ¬ s.currentIndex < text.length := by omega
    rw [driverRun_of_not_lt speed delay text hc s h,
      revealTick_of_not_lt text s h]
  | succ k ih =>
    have h : s.currentIndex < text.length := by omega
    rw [driverRun_of_lt speed delay text hc s h]
    have hidx := revealTick_currentIndex_of_lt text s h
    exact ih (revealTick text s).1 (by omega)

theorem Inv_initState (text : List Char) : Inv text initState := by
  simp [Inv, initState]

theorem Inv_revealTick (text : List Char) (s : State) (hs : Inv text s) :
    Inv text (revealTick text s).1 := by
  obtain ⟨hpre, hle, hcomp⟩ := hs
  by_cases h : s.currentIndex < text.length
  · rw [revealTick_of_lt text s h]
    refine ⟨?_, ?_, ?_⟩
    · show s.displayedText ++ [text.get ⟨s.currentIndex, h⟩] = text.take (s.currentIndex + 1)
      rw [hpre, List.take_succ, List.getElem?_eq_getElem h]
      simp
    · show s.currentIndex + 1 ≤ text.length
      omega
    · intro hc
      exact absurd (hcomp hc) (by omega)
  · rw [revealTick_of_not_lt text s h]
    refine ⟨hpre, hle, fun _ => ?_⟩
    show s.currentIndex = text.length
    omega

theorem Inv_step (text : List Char) (hide : Bool) (s s' : State)
    (hstep : Step text hide s s') (hs : Inv text s) : Inv text s' := by
  cases hstep with
  | reveal => exact Inv_revealTick text s hs
  | blink _ => exact hs
  | cursorOff hnone =>
    obtain ⟨hpre, hle, hcomp⟩ := hs
    unfold runCursorEffect at hnone ⊢
    by_cases h : hide && s.isComplete
    · simp only [h, if_true]
      exact ⟨hpre, hle, hcomp⟩
    · simp [h] at hnone

theorem Inv_reachable (text : List Char) (hide : Bool) (s : State)
    (hr : Reachable text hide s) : Inv text s := by
  induction hr with
  | init => exact Inv_initState text
  | step _ hstep ih => exact Inv_step text hide _ _ hstep ih

theorem runCursorEffect_fst (hide : Bool) (s : State) :
    (runCursorEffect hide s).1 =
      if hide && s.isComplete then { s with showCursor := false } else s := by
  unfold runCursorEffect
  split <;> rfl

theorem Step_currentIndex_le (text : List Char) (hide : Bool) (s s' : State)
    (hstep : Step text hide s s') : s.currentIndex ≤ s'.currentIndex := by
  cases hstep with
  | reveal =>
    by_cases h : s.currentIndex < text.length
    · rw [revealTick_of_lt text s h]
      show s.currentIndex ≤ s.currentIndex + 1
      omega
    · rw [revealTick_of_not_lt text s h]
  | blink _ => exact Nat.le_refl _
  | cursorOff _ =>
    rw [runCursorEffect_fst]
    split <;> exact Nat.le_refl _

/-- Claim C1 counterexample: with target `"A"`, the state after the first
reveal wake-up is reachable and has `currentIndex = text.length = 1`
while `isComplete` is still `false` (it becomes `true` only at the later
terminal wake-up), so `isComplete ↔ currentIndex = text.length` fails in
a reachable state. -/
theorem isComplete_iff_cex :
    Reachable ['A'] false (revealTick ['A'] initState).1 ∧
    ¬((revealTick ['A'] initState).1.isComplete = true ↔
      (revealTick ['A'] initState).1.currentIndex = (['A'] : List Char).length) :=
  ⟨Reachable.step Reachable.init (Step.reveal initState), by decide⟩

/-- Claim C1 (amended): in every reachable state of a mounted instance
with fixed configuration, `isComplete` implies
`currentIndex = text.length`; the converse fails in the window between
the last character reveal and the terminal wake-up, so only this
direction of the claimed equivalence holds. -/
theorem isComplete_implies_fully_revealed (text : List Char) (hide : Bool) (s : State)
    (hr : Reachable text hide s) (hc : s.isComplete = true) :
    s.currentIndex = text.length :=
  (Inv_reachable text hide s hr).2.2 hc

theorem isComplete_implies_fully_revealed_witness :
    (revealTick [] initState).1.currentIndex = ([] : List Char).length :=
  isComplete_implies_fully_revealed [] false (revealTick [] initState).1
    (Reachable.step Reachable.init (Step.reveal initState)) (by decide)

/-- Claim C2: the delay passed to `setTimeout` is `delay` exactly at
`currentIndex = 0` and `speed` otherwise, so a full fixed-configuration
run over a target of length `n` schedules waits
`delay, speed, …, speed`, i.e. `n + 1` wake-ups in total (`n` character
reveals plus the terminal wake-up). -/
theorem reveal_schedule_waits (speed delay : Int) (text : List Char) (hc : Bool) :
    (∀ i : Nat, timeoutDelay speed delay i = if i = 0 then delay else speed) ∧
    (driverRun speed delay text hc initState).1 =
      delay :: List.replicate text.length speed ∧
    (driverRun speed delay text hc initState).1.length = text.length + 1 := by
  have hw := driverRun_waits speed delay text hc text.length initState (by simp [initState])
  refine ⟨fun i => rfl, ?_, ?_⟩
  · rw [hw]
    simp [initState, timeoutDelay]
  · rw [hw]
    simp

/-- Claim C3: with the configuration fixed after mount and `onComplete`
supplied, a full run invokes `onComplete` exactly once, the final state
is complete, and no non-terminal wake-up (one with
`currentIndex < text.length`) takes the invoking branch — the single
invocation happens at the terminal wake-up. -/
theorem onComplete_exactly_once (speed delay : Int) (text : List Char) :
    (driverRun speed delay text true initState).2.2 = 1 ∧
    (driverRun speed delay text true initState).2.1.isComplete = true ∧
    (∀ s : State, s.currentIndex < text.length → (revealTick text s).2 = false) := by
  refine ⟨?_, driverRun_isComplete speed delay text true initState, ?_⟩
  · rw [driverRun_invocations]
    rfl
  · intro s h
    rw [revealTick_of_lt text s h]

theorem onComplete_exactly_once_witness :
    (driverRun 100 0 ['H', 'i'] true initState).2.2 = 1 ∧
    (revealTick ['H', 'i'] initState).2 = false :=
  ⟨(onComplete_exactly_once 100 0 ['H', 'i']).1,
   (onComplete_exactly_once 100 0 ['H', 'i']).2.2 initState (by decide)⟩

/-- Claim C4: in every reachable state the render output carries the
caller's class hook and exactly the revealed prefix
`text.take currentIndex` as its text; the caret node is omitted (not
merely invisible) exactly when `hideCursorWhenComplete ∧ isComplete`,
and when present it is the glyph `|` with opacity 1 when `showCursor`
and 0 otherwise. -/
theorem render_projection (cn : String) (text : List Char) (hide : Bool) (s : State)
    (hr : Reachable text hide s) :
    (render cn hide s).className = cn ∧
    (render cn hide s).text = text.take s.currentIndex ∧
    ((render cn hide s).caret = none ↔ (hide = true ∧ s.isComplete = true)) ∧
    (∀ c : Caret, (render cn hide s).caret = some c →
      c.glyph = '|' ∧ c.opacity = if s.showCursor then 1 else 0) := by
  refine ⟨rfl, ?_, ?_, ?_⟩
  · exact (Inv_reachable text hide s hr).1
  · unfold render
    by_cases h1 : hide <;> by_cases h2 : s.isComplete <;> simp [h1, h2]
  · intro c hc
    unfold render at hc
    split at hc
    · cases hc
      exact ⟨rfl, rfl⟩
    · exact absurd hc (by simp)

theorem render_projection_witness :
    ((render "demo" false initState).caret = none ↔
      (false = true ∧ initState.isComplete = true)) :=
  (render_projection "demo" [] false initState Reachable.init).2.2.1

/-- Claim C5: the cursor-blinker effect schedules the 500-unit toggle
interval exactly when blinking should be active (not both
`hideCursorWhenComplete` and `isComplete`); each interval firing negates
`showCursor` (and two firings restore it, so it alternates
indefinitely); with `hideCursorWhenComplete = false` the effect
schedules the interval and touches nothing regardless of completion;
with `hideCursorWhenComplete = true` and `isComplete = true` it forces
`showCursor` to `false` and schedules no further toggle. -/
theorem cursor_blinker_contract :
    (∀ (hide : Bool) (s : State),
      (runCursorEffect hide s).2 = some 500 ↔ ¬(hide = true ∧ s.isComplete = true)) ∧
    (∀ s : State, (blinkToggle s).showCursor = !s.showCursor) ∧
    (∀ s : State, blinkToggle (blinkToggle s) = s) ∧
    (∀ s : State, runCursorEffect false s = (s, some 500)) ∧
    (∀ s : State, s.isComplete = true →
      runCursorEffect true s = ({ s with showCursor := false }, none)) := by
  refine ⟨?_, fun s => rfl, ?_, ?_, ?_⟩
  · intro hide s
    unfold runCursorEffect
    by_cases h1 : hide <;> by_cases h2 : s.isComplete <;> simp [h1, h2]
  · intro s
    simp [blinkToggle]
  · intro s
    unfold runCursorEffect
    simp
  · intro s hs
    unfold runCursorEffect
    simp [hs]

theorem cursor_blinker_contract_witness :
    runCursorEffect true { initState with isComplete := true } =
      ({ initState with isComplete := true, showCursor := false }, none) :=
  cursor_blinker_contract.2.2.2.2 { initState with isComplete := true } rfl

/-- Claim C6 counterexample: the code applies no clamping — with
`delay = -7` the single wake-up of an empty-target run is scheduled with
the negative delay `-7`, so the driver does schedule a wake-up with a
negative delay. -/
theorem negative_delay_not_clamped_cex :
    (driverRun 100 (-7) [] true initState).1 = [-7] ∧ (-7 : Int) < 0 := by
  constructor
  · rw [driverRun_of_not_lt 100 (-7) [] true initState (by decide)]
    rfl
  · decide

/-- Claim C6 (amended): the scheduling delay on line 36 is passed to
`setTimeout` unclamped — it is always exactly `delay` (first wake-up) or
`speed` (later wake-ups), so when both are negative every scheduled
wake-up of a full run has a negative delay. -/
theorem negative_delays_pass_through (speed delay : Int) (text : List Char) (hc : Bool)
    (hs : speed < 0) (hd : delay < 0) :
    ∀ w ∈ (driverRun speed delay text hc initState).1, w < 0 := by
  intro w hw
  rw [driverRun_waits speed delay text hc text.length initState (by simp [initState])] at hw
  rcases List.mem_cons.mp hw with h | h
  · subst h
    simpa [initState, timeoutDelay] using hd
  · have := List.eq_of_mem_replicate h
    omega

theorem negative_delays_pass_through_witness : (-7 : Int) < 0 := by
  refine negative_delays_pass_through (-5) (-7) ['A'] true (by decide) (by decide) (-7) ?_
  rw [driverRun_waits (-5) (-7) ['A'] true 1 initState (by decide)]
  decide

/-- Claim C7: if the target changes mid-reveal to a `text` with
`text.length < currentIndex` (and `currentIndex` is not reset), the
rescheduled wake-up takes the completion branch: it sets `isComplete`,
reports an `onComplete` invocation, and leaves `displayedText` and
`currentIndex` unchanged — none of the new text's characters is ever
revealed from the start. -/
theorem shrunken_text_completes_immediately (text : List Char) (s : State)
    (h : text.length < s.currentIndex) :
    revealTick text s = ({ s with isComplete := true }, true) ∧
    (revealTick text s).1.displayedText = s.displayedText ∧
    (revealTick text s).1.currentIndex = s.currentIndex := by
  have h' : ¬ s.currentIndex < text.length := by omega
  rw [revealTick_of_not_lt text s h']
  exact ⟨rfl, rfl, rfl⟩

theorem shrunken_text_completes_immediately_witness :
    revealTick ['H', 'i']
        { displayedText := ['H', 'e', 'l'], currentIndex := 3,
          showCursor := true, isComplete := false } =
      ({ displayedText := ['H', 'e', 'l'], currentIndex := 3,
          showCursor := true, isComplete := true }, true) :=
  (shrunken_text_completes_immediately ['H', 'i']
    { displayedText := ['H', 'e', 'l'], currentIndex := 3,
      showCursor := true, isComplete := false } (by decide)).1

/-- Claim C8: for the empty target the full run consists of the single
wake-up scheduled with delay `delay`, which finds
`currentIndex (0) = text.length (0)`, sets `isComplete`, and invokes
`onComplete` once; no character is appended, and in every reachable
state of an empty-target instance the revealed text is still empty. -/
theorem empty_target_run (speed delay : Int) (hide : Bool) :
    driverRun speed delay [] true initState =
      ([delay], { initState with isComplete := true }, 1) ∧
    (∀ s : State, Reachable [] hide s → s.displayedText = []) := by
  constructor
  · rw [driverRun_of_not_lt speed delay [] true initState (by simp [initState]),
      revealTick_of_not_lt [] initState (by simp [initState])]
    simp [timeoutDelay, initState]
  · intro s hr
    have h := (Inv_reachable [] hide s hr).1
    simpa using h

theorem empty_target_run_witness :
    driverRun 100 50 [] true initState = ([50], { initState with isComplete := true }, 1) ∧
    initState.displayedText = [] :=
  ⟨(empty_target_run 100 50 false).1,
   (empty_target_run 100 50 false).2 initState Reachable.init⟩

/-- Claim C9: `currentIndex` never decreases across any step (reveal
tick, blink tick, or cursor-off effect run), and in every reachable
state of a fixed-configuration instance `currentIndex ≤ text.length`. -/
theorem currentIndex_monotone_and_bounded :
    (∀ (text : List Char) (hide : Bool) (s s' : State), Step text hide s s' →
      s.currentIndex ≤ s'.currentIndex) ∧
    (∀ (text : List Char) (hide : Bool) (s : State), Reachable text hide s →
      s.currentIndex ≤ text.length) :=
  ⟨Step_currentIndex_le,
   fun text hide s hr => (Inv_reachable text hide s hr).2.1⟩

theorem currentIndex_monotone_and_bounded_witness :
    initState.currentIndex ≤ (blinkToggle initState).currentIndex ∧
    initState.currentIndex ≤ ([] : List Char).length :=
  ⟨currentIndex_monotone_and_bounded.1 [] false initState (blinkToggle initState)
     (Step.blink initState (by decide)),
   currentIndex_monotone_and_bounded.2 [] false initState Reachable.init⟩

/-- Claim C10: every post-completion reveal-effect re-run (triggered by
a change to `text`, `speed`, `delay`, or the `onComplete` reference)
whose `text` satisfies `text.length ≤ currentIndex` schedules a wake-up
that takes the completion branch and invokes `onComplete` again:
`k` such re-runs produce exactly `k` further invocations while
`currentIndex` never changes, so exactly-once delivery is not preserved
under post-completion parameter changes. -/
theorem post_completion_reruns_refire (texts : List (List Char)) (s : State)
    (h : ∀ t ∈ texts, t.length ≤ s.currentIndex) :
    (postCompletionRuns texts s).2 = texts.length ∧
    (postCompletionRuns texts s).1.currentIndex = s.currentIndex := by
  induction texts generalizing s with
  | nil => simp [postCompletionRuns]
  | cons t ts ih =>
    have ht : ¬ s.currentIndex < t.length := by
      have := h t (List.mem_cons_self t ts)
      omega
    have hrest := ih { s with isComplete := true }
      (fun u hu => h u (List.mem_cons_of_mem t hu))
    simp only [postCompletionRuns, revealTick_of_not_lt t s ht]
    refine ⟨?_, hrest.2⟩
    rw [hrest.1]
    simp [Nat.add_comm]

theorem post_completion_reruns_refire_witness :
    (postCompletionRuns [['H', 'i'], ['H', 'i']]
        { displayedText := ['H', 'i'], currentIndex := 2,
          showCursor := true, isComplete := true }).2 = 2 :=
  (post_completion_reruns_refire [['H', 'i'], ['H', 'i']]
    { displayedText := ['H', 'i'], currentIndex := 2,
      showCursor := true, isComplete := true } (by decide)).1

end TypingAnimation
